import Mathlib

/-!
# Journey Funnel Scoring & Reordering Engine — shallow embedding

This file embeds the deterministic scoring/ranking core of the repository's
`mcp_server_fast.py` (and, where relevant, `mcp_server.py`) into Lean 4 and
proves properties of the embedded functions.

Conventions of the embedding:
* Python floats are modelled as `ℚ` (the numeric code is plain field
  arithmetic: `+ - * /`, `max`, `min`, products and sums).
* Python dicts that may lack keys are modelled as records with `Option`
  fields; `d.get(k, v)` becomes `(field).getD v`.
* Python exceptions (`KeyError` from `FRAMEWORK_FOCUSES[fw]`,
  `ZeroDivisionError` from `sum(..)/len(..)` on an empty list, `NameError`
  from the leaked loop variable `i`) are modelled by `Option`-valued
  functions returning `none`.
* `random.uniform(1, 5)` calls in the Fogg branch of
  `handle_manus_funnel_fast` are modelled by an explicit stream
  `d : Nat → ℚ` of draws: the i-th step consumes draws `d (2*i)`
  (motivation) and `d (2*i+1)` (trigger), in the order Python makes the
  calls.
* Python's stable `sorted(key=k, reverse=True)` is modelled by
  `sortDescBy k`, a stable descending insertion sort.  A stable sort's
  output is uniquely determined by its specification (permutation,
  descending keys, original order on ties), so this matches CPython's
  stable sort exactly; the three characterizing properties are proved
  below.
* The embedding models mock mode (`openai_client is None`, no
  `OPENAI_API_KEY`), which is the only deterministic configuration; the
  live-LLM branch is an external collaborator per the spec.  The
  normalization loop of `generate_fast_analysis` (the non-mock fallback
  fill) is embedded as a function of the externally supplied table.
-/

namespace JourneyFunnel

open List

/-- Clamp `x` into `[lo, hi]`, written `max lo (min hi x)` exactly as the
Python code writes `max(lo, min(hi, x))`. -/
def clampQ (lo hi x : ℚ) : ℚ := max lo (min hi x)

/-- Insert `x` into `l` before the first element whose key is `≤ key x`.
Auxiliary for `sortDescBy`. -/
def insertDescBy {α : Type} (key : α → ℚ) (x : α) : List α → List α
  | [] => [x]
  | y :: ys => if key y ≤ key x then x :: y :: ys else y :: insertDescBy key x ys

/-- Python's `sorted(l, key=key, reverse=True)`: a stable descending sort.
A stable sort's output is uniquely determined by three properties — it is
a permutation of the input, keys are descending, and elements with equal
keys keep their original relative order — so this stable insertion sort
produces exactly the list CPython's stable sort produces.  The three
properties are proved below (`sortDescBy_perm`, `sortDescBy_pairwise`,
`sortDescBy_stable`). -/
def sortDescBy {α : Type} (key : α → ℚ) : List α → List α
  | [] => []
  | x :: xs => insertDescBy key x (sortDescBy key xs)

/-- A funnel step record (`mcp_server_fast.py` step dicts).  Every field the
scoring code reads is optional, mirroring `step.get(key, default)`. -/
structure Step where
  stepIndex : Option Nat := none
  observedCR : Option ℚ := none
  CR_s : Option ℚ := none
  Qs : Option ℚ := none
  Is : Option ℚ := none
  Ds : Option ℚ := none
deriving DecidableEq, Inhabited

/-- `step.get("observedCR", 0.5)` — the default CR used throughout
`handle_manus_funnel_fast` (lines 380, 399, 477, 483). -/
def obsCR (s : Step) : ℚ := s.observedCR.getD (1/2)

/-- A per-framework suggestion record (the dict values of
`assessment["frameworks"]`).  The four numeric/text fields are always
produced by the code paths we embed; `motivation_score`/`trigger_score`
are present only for the Fogg framework in mock mode. -/
structure Suggestion where
  suggestion : String := ""
  reasoning : String := ""
  confidence : ℚ := 0
  estimated_uplift_pp : ℚ := 0
  motivation_score : Option ℚ := none
  trigger_score : Option ℚ := none
deriving DecidableEq, Inhabited

/-- One entry of the analysis table: `{"stepIndex": i, "frameworks": {...}}`.
The frameworks dict is an association list in insertion order. -/
structure Assessment where
  stepIndex : Nat := 0
  frameworks : List (String × Suggestion) := []
deriving DecidableEq, Inhabited

/-- `FRAMEWORK_FOCUSES` from `mcp_server_fast.py` lines 44-54. -/
def FRAMEWORK_FOCUSES : List (String × String) :=
  [("PAS", "pain points and urgency"),
   ("Fogg", "reducing friction"),
   ("Nielsen", "usability improvements"),
   ("AIDA", "progressive engagement"),
   ("Cialdini", "psychological triggers"),
   ("SCARF", "trust and safety"),
   ("JTBD", "user outcomes"),
   ("TOTE", "feedback loops"),
   ("ELM", "persuasion depth")]

/-- The mock suggestion built by `create_mock_analysis` (lines 171-183):
confidence 0.8, estimated_uplift_pp 2.0, and for the Fogg framework
motivation_score 3.5 and trigger_score 3.0. -/
def mockSuggestion (framework : String) (i : Nat) (focus : String) : Suggestion :=
  { suggestion := "[Fast] " ++ framework ++ " optimization for step " ++ toString (i+1)
      ++ ": Focus on " ++ focus
    reasoning := "Based on " ++ framework ++ " principles: " ++ focus
    confidence := 4/5
    estimated_uplift_pp := 2
    motivation_score := if framework = "Fogg" then some (7/2) else none
    trigger_score := if framework = "Fogg" then some 3 else none }

/-- The frameworks dict built per step by `create_mock_analysis`
(lines 169-183).  `FRAMEWORK_FOCUSES[framework]` raises `KeyError` for an
unknown framework, hence the `none` case. -/
def mockFrameworkList (i : Nat) : List String → Option (List (String × Suggestion))
  | [] => some []
  | fw :: rest =>
    match FRAMEWORK_FOCUSES.lookup fw with
    | none => none
    | some focus => (mockFrameworkList i rest).map (fun tail => (fw, mockSuggestion fw i focus) :: tail)

/-- Collapse a list of optional values, failing on the first `none`
(the effect of an exception escaping a Python loop). -/
def optionsAll {α : Type} : List (Option α) → Option (List α)
  | [] => some []
  | none :: _ => none
  | some a :: rest => (optionsAll rest).map (a :: ·)

/-- `create_mock_analysis(steps, frameworks)` (lines 164-190): one
assessment per step index, each carrying the mock suggestion for every
requested framework. -/
def create_mock_analysis (steps : List Step) (frameworks : List String) :
    Option (List Assessment) :=
  optionsAll ((List.range steps.length).map (fun i =>
    (mockFrameworkList i frameworks).map (fun fs => { stepIndex := i, frameworks := fs })))

/-- The fallback record injected for a missing (step, framework) pair by the
non-mock branch of `generate_fast_analysis` (lines 150-155): confidence
0.7, estimated_uplift_pp 1.5, framework-labelled texts. -/
def fallbackSuggestion (framework focus : String) : Suggestion :=
  { suggestion := "Optimize using " ++ framework ++ " principles"
    reasoning := "Apply " ++ focus ++ " to improve conversion"
    confidence := 7/10
    estimated_uplift_pp := 3/2 }

/-- The inner loop of the normalizer (lines 148-155): add the fallback for
every requested framework missing from one step's frameworks dict.  The
reasoning text indexes `FRAMEWORK_FOCUSES[framework]`, so an unknown
framework raises `KeyError` (`none`). -/
def fillFrameworks (cur : List (String × Suggestion)) :
    List String → Option (List (String × Suggestion))
  | [] => some cur
  | fw :: rest =>
    if (cur.lookup fw).isSome then fillFrameworks cur rest
    else
      match FRAMEWORK_FOCUSES.lookup fw with
      | none => none
      | some focus => fillFrameworks (cur ++ [(fw, fallbackSuggestion fw focus)]) rest

/-- The outer normalizer loop of `generate_fast_analysis` (lines 140-155):
for `i in range(len(steps))`, append `{"stepIndex": i, "frameworks": {}}`
when position `i` is absent, then fill that position's missing frameworks.
Modelled as a recursion on the number `k` of remaining indices starting
at index `i`. -/
def fillMissingFrom (frameworks : List String) : Nat → Nat → List Assessment → Option (List Assessment)
  | _, 0, acc => some acc
  | i, k+1, acc =>
    let acc2 := if acc.length ≤ i then acc ++ [{ stepIndex := i, frameworks := [] }] else acc
    match acc2[i]? with
    | some a =>
      match fillFrameworks a.frameworks frameworks with
      | some fs => fillMissingFrom frameworks (i+1) k (acc2.set i { a with frameworks := fs })
      | none => none
    | none => none

/-- The whole normalization pass over a (possibly partial) externally
supplied assessment table. -/
def fillMissingAssessments (steps : List Step) (frameworks : List String)
    (assessments : List Assessment) : Option (List Assessment) :=
  fillMissingFrom frameworks 0 steps.length assessments

/-- `assessment["frameworks"].get(framework, {}).get("estimated_uplift_pp", 0)`
(lines 263-264, 276, 410). -/
def upliftFor (a : Assessment) (fw : String) : ℚ :=
  ((a.frameworks.lookup fw).map Suggestion.estimated_uplift_pp).getD 0

/-- Average uplift of one framework across all assessments (lines 263-266):
`sum(...) / len(assessments) if assessments else 0`. -/
def avgUpliftAcross (assessments : List Assessment) (fw : String) : ℚ :=
  if assessments.length = 0 then 0
  else ((assessments.map (fun a => upliftFor a fw)).sum) / assessments.length

/-- The enhanced per-step CR used by the order recommendations
(lines 270-281): when an assessment with this step index exists, the
framework's uplift is clamped to `[-30, 30]`, converted to a decimal and
added to the observed CR, the sum clamped into `[0, 1]`; otherwise the
step's CR is unchanged. -/
def enhancedCR (assessments : List Assessment) (fw : String) (i : Nat) (s : Step) : ℚ :=
  match assessments.find? (fun a => a.stepIndex == i) with
  | some a => clampQ 0 1 (obsCR s + clampQ (-30) 30 (upliftFor a fw) / 100)
  | none => obsCR s

/-- `expected_CR_total = Π enhanced_CRₛ` (lines 283-286). -/
def expectedCRTotal (steps : List Step) (assessments : List Assessment) (fw : String) : ℚ :=
  (steps.enum.map (fun p => enhancedCR assessments fw p.1 p.2)).prod

/-- One order recommendation entry (lines 288-294).  The free-text
`reasoning` field is float-formatted output and is not modelled. -/
structure OrderRec where
  framework : String
  recommendedOrder : List Nat
  expected_CR_total : ℚ
  expectedUplift : ℚ
deriving DecidableEq, Inhabited

/-- One suggestion row of a transformed assessment (lines 315-319). -/
structure SuggestionOut where
  framework : String
  revisedText : String
  rationale : String
deriving DecidableEq, Inhabited

/-- One transformed assessment (lines 335-342). -/
structure TransformedAssessment where
  stepIndex : Nat
  base_CR_s : ℚ
  estimated_uplift : ℚ
  new_CR_s : ℚ
  cumulative_new_CR_s : ℚ
  suggestions : List SuggestionOut
deriving DecidableEq, Inhabited

/-- The body of the transformation loop of `handle_assess_steps_fast`
(lines 302-352) for a single assessment, threading the running cumulative
CR.  `lastIdx` is the leaked value of the loop variable `i` from the
order-recommendation loop (line 271), read by
`s.get("stepIndex", i)` at line 306; `base_CR_s` is
`original_step.get("CR_s", 0.5)` (line 307). -/
def transformOne (steps : List Step) (lastIdx : Nat) (cum : ℚ) (a : Assessment) :
    TransformedAssessment × ℚ :=
  let original_step := steps.find? (fun s => s.stepIndex.getD lastIdx == a.stepIndex)
  let base_CR_s : ℚ :=
    match original_step with
    | some s => s.CR_s.getD (1/2)
    | none => 1/2
  let suggestions := a.frameworks.map (fun p =>
    ({ framework := p.1, revisedText := p.2.suggestion, rationale := p.2.reasoning } : SuggestionOut))
  let total_uplift := (a.frameworks.map (fun p => p.2.estimated_uplift_pp)).sum
  let avg_uplift : ℚ :=
    if a.frameworks.length > 0 then total_uplift / a.frameworks.length else 0
  let clamped := clampQ (-(3/10)) (3/10) (avg_uplift / 100)
  let new_cr := clampQ 0 1 (base_CR_s + clamped)
  (⟨a.stepIndex, base_CR_s, clamped, new_cr, cum * new_cr, suggestions⟩, cum * new_cr)

/-- The transformation loop over all assessments, seeded with
`cumulative_cr = 1.0` (line 300) by the caller. -/
def transformAll (steps : List Step) (lastIdx : Nat) :
    List Assessment → ℚ → List TransformedAssessment × ℚ
  | [], cum => ([], cum)
  | a :: rest, cum =>
    let (t, cum2) := transformOne steps lastIdx cum a
    let (ts, cumF) := transformAll steps lastIdx rest cum2
    (t :: ts, cumF)

/-- The result payload of `assessSteps` (lines 357-363, minus timestamp
and method strings). -/
structure AssessResult where
  assessments : List TransformedAssessment
  order_recommendations : List OrderRec
  predicted_CR_total : ℚ
deriving DecidableEq, Inhabited

/-- The computation of `handle_assess_steps_fast` after the analysis table
has been obtained (lines 260-363).  When the frameworks list is empty (or
the steps list is empty) while assessments exist, line 306 reads the loop
variable `i` that was never bound, raising `NameError` (`none`). -/
def assessStepsCore (steps : List Step) (frameworks : List String)
    (assessments : List Assessment) : Option AssessResult :=
  if assessments ≠ [] ∧ (steps = [] ∨ frameworks = []) then none
  else
    let recs := frameworks.map (fun fw =>
      ({ framework := fw,
         recommendedOrder := List.range steps.length,
         expected_CR_total := expectedCRTotal steps assessments fw,
         expectedUplift := avgUpliftAcross assessments fw } : OrderRec))
    let recsSorted := sortDescBy OrderRec.expected_CR_total recs
    let tr := transformAll steps (steps.length - 1) assessments 1
    some { assessments := tr.1, order_recommendations := recsSorted,
           predicted_CR_total := tr.2 }

/-- `handle_assess_steps_fast` in mock mode: `generate_fast_analysis`
returns `create_mock_analysis` (line 63), then the core runs. -/
def handle_assess_steps_fast (steps : List Step) (frameworks : List String) :
    Option AssessResult :=
  (create_mock_analysis steps frameworks).bind (assessStepsCore steps frameworks)

/-- One row of a variant's suggestions (lines 419-424). -/
structure VariantSuggestion where
  stepIndex : Nat
  suggestion : String
  reasoning : String
  confidence : ℚ
deriving DecidableEq, Inhabited

/-- One Fogg per-step metric dict (lines 458-465). -/
structure FoggMetric where
  stepIndex : Nat
  motivation : ℚ
  ability : ℚ
  trigger : ℚ
  fogg_score : ℚ
  complexity : ℚ
deriving DecidableEq, Inhabited

/-- One variant (lines 426-433 and 500-508). `fogg_metrics` is empty for
the per-framework variants, which carry no such key. -/
structure Variant where
  framework : String
  step_order : List Nat
  CR_total : ℚ
  uplift_pp : ℚ
  suggestions : List VariantSuggestion
  fogg_metrics : List FoggMetric := []
  confidence : ℚ
deriving DecidableEq, Inhabited

/-- The result payload of `manusFunnel` (lines 515-526, minus timestamp
and meta). -/
structure FunnelResult where
  baselineCR : ℚ
  variants : List Variant
deriving DecidableEq, Inhabited

/-- `baseline_cr = Π step.get("observedCR", 0.5)` (lines 378-380; the same
product is recomputed as `baseline_cr_total` at lines 475-477). -/
def baselineCR (steps : List Step) : ℚ := (steps.map obsCR).prod

/-- The per-step Fogg metric (lines 442-465).  `motivation` and `trigger`
are the two `random.uniform(1, 5)` draws for step `i`; `SC_s` is the
plain average of `Qs`, `Is`, `Ds` (each defaulting to 2);
`ability = max(1, min(5, 6 - SC_s))`; `fogg_score = M * A * T`. -/
def foggMetricOf (d : Nat → ℚ) (i : Nat) (s : Step) : FoggMetric :=
  let motivation := d (2*i)
  let trigger := d (2*i + 1)
  let sc := (s.Qs.getD 2 + s.Is.getD 2 + s.Ds.getD 2) / 3
  let ability := max 1 (min 5 (6 - sc))
  ⟨i, motivation, ability, trigger, motivation * ability * trigger, sc⟩

/-- `fogg_steps_with_scores` (lines 440-465), one metric per step in input
order. -/
def foggMetrics (steps : List Step) (d : Nat → ℚ) : List FoggMetric :=
  steps.enum.map (fun p => foggMetricOf d p.1 p.2)

/-- `sorted(fogg_steps_with_scores, key=lambda x: x["fogg_score"], reverse=True)`
(line 468): stable sort, descending by fogg_score. -/
def foggSorted (steps : List Step) (d : Nat → ℚ) : List FoggMetric :=
  sortDescBy FoggMetric.fogg_score (foggMetrics steps d)

/-- `fogg_recommended_order` (line 469). -/
def foggRecommendedOrder (steps : List Step) (d : Nat → ℚ) : List Nat :=
  (foggSorted steps d).map FoggMetric.stepIndex

/-- `fogg_cr_total`: the observed-CR product over
`[steps[i] for i in fogg_recommended_order]` (lines 480-483). -/
def foggCRTotal (steps : List Step) (d : Nat → ℚ) : ℚ :=
  ((foggRecommendedOrder steps d).map (fun i => obsCR (steps.getD i {}))).prod

/-- `avg_fogg_score` (line 490); its Python form divides by
`len(fogg_steps_with_scores)` and raises `ZeroDivisionError` on an empty
funnel — the caller guards that case by returning `none`. -/
def foggAvgScore (steps : List Step) (d : Nat → ℚ) : ℚ :=
  ((foggMetrics steps d).map FoggMetric.fogg_score).sum / (foggMetrics steps d).length

/-- `fogg_order_uplift` after the confidence bonus (lines 486-495):
`(fogg_cr_total - baseline_cr_total) * 100 + (avg_fogg_score / 125) * 1.5`.
No clamp is applied by the code. -/
def foggUplift (steps : List Step) (d : Nat → ℚ) : ℚ :=
  (foggCRTotal steps d - baselineCR steps) * 100 + (foggAvgScore steps d / 125) * (3/2)

/-- The per-framework variant (lines 408-433): the raw uplifts are summed
(unclamped), `CR_total = baseline * (1 + total_uplift / 100)`, suggestions
default to empty strings / confidence 0.7 for missing data. -/
def variantFor (steps : List Step) (assessments : List Assessment) (fw : String) : Variant :=
  let total_uplift := (assessments.map (fun a => upliftFor a fw)).sum
  let suggestions := assessments.map (fun a =>
    let fd := a.frameworks.lookup fw
    ({ stepIndex := a.stepIndex,
       suggestion := ((fd.map Suggestion.suggestion).getD ""),
       reasoning := ((fd.map Suggestion.reasoning).getD ""),
       confidence := ((fd.map Suggestion.confidence).getD (7/10)) } : VariantSuggestion))
  { framework := fw
    step_order := List.range steps.length
    CR_total := baselineCR steps * (1 + total_uplift / 100)
    uplift_pp := total_uplift
    suggestions := suggestions
    confidence := if suggestions.length ≠ 0
      then (suggestions.map VariantSuggestion.confidence).sum / suggestions.length
      else 7/10 }

/-- The synthetic Fogg-BM variant (lines 497-508):
`CR_total = baseline_cr * (1 + fogg_order_uplift / 100)` with no clamp
against the baseline. -/
def foggVariant (steps : List Step) (d : Nat → ℚ) : Variant :=
  { framework := "Fogg-BM"
    step_order := foggRecommendedOrder steps d
    CR_total := baselineCR steps * (1 + foggUplift steps d / 100)
    uplift_pp := foggUplift steps d
    suggestions := []
    fogg_metrics := foggMetrics steps d
    confidence := 4/5 }

/-- `handle_manus_funnel_fast` after the analysis table is available
(lines 406-530): per-framework variants, the Fogg branch when "Fogg" is
requested (which divides by the number of steps and therefore raises
`ZeroDivisionError` on an empty funnel), and the final stable sort of
variants descending by `uplift_pp`. -/
def funnelCore (steps : List Step) (frameworks : List String)
    (assessments : List Assessment) (d : Nat → ℚ) : Option FunnelResult :=
  let variants := frameworks.map (variantFor steps assessments)
  if "Fogg" ∈ frameworks then
    if steps.length = 0 then none
    else
      let vs := variants ++ [foggVariant steps d]
      some { baselineCR := baselineCR steps,
             variants := sortDescBy Variant.uplift_pp vs }
  else
    some { baselineCR := baselineCR steps,
           variants := sortDescBy Variant.uplift_pp variants }

/-- `handle_manus_funnel_fast` in mock mode.  The assessment steps
rebuilt at lines 385-400 are consumed by `create_mock_analysis`, which
only reads the list length and the frameworks, so the original steps are
passed through directly. -/
def handle_manus_funnel_fast (steps : List Step) (frameworks : List String)
    (d : Nat → ℚ) : Option FunnelResult :=
  (create_mock_analysis steps frameworks).bind
    (fun assessments => funnelCore steps frameworks assessments d)

/-- A boost element (`handle_assess_boost_elements_fast`, lines 547-549):
`element.get("id", "")` and `element.get("text", "")`. -/
structure BoostElement where
  id : String := ""
  text : String := ""
deriving DecidableEq, Inhabited

/-- A classified boost (lines 580-584). -/
structure ClassifiedBoost where
  id : String
  category : String
  score : Nat
deriving DecidableEq, Inhabited

/-- Python's `str.lower()`: character-wise lower-casing. -/
def strLower (s : String) : String := ⟨s.data.map Char.toLower⟩

/-- Python's substring test `keyword in element_text`, as containment of
character sequences. -/
def substrOf (k text : String) : Bool := decide (k.data <:+: text.data)

/-- `any(keyword in element_text for keyword in [...])`. -/
def containsAny (text : String) (keywords : List String) : Bool :=
  keywords.any (fun k => substrOf k text)

/-- The rule-based classification of one boost element
(lines 547-584), operating on the lower-cased text.  The initial
assignment `category = "visual", score = 1` is the fall-through default. -/
def classifyElement (e : BoostElement) : ClassifiedBoost :=
  let t := strLower e.text
  if containsAny t ["testimonial", "review", "customers", "users", "ratings"] then
    ⟨e.id, "social-proof", 3⟩
  else if containsAny t ["secure", "ssl", "encrypted", "trusted", "verified"] then
    ⟨e.id, "security", 3⟩
  else if containsAny t ["limited", "exclusive", "only", "few left"] then
    ⟨e.id, "scarcity", 2⟩
  else if containsAny t ["urgent", "deadline", "expires", "hurry", "now"] then
    ⟨e.id, "urgency", 2⟩
  else if containsAny t ["expert", "certified", "award", "professional", "endorsed"] then
    ⟨e.id, "authority", 4⟩
  else if containsAny t ["progress", "step", "completion", "indicator"] then
    ⟨e.id, "progress", 2⟩
  else if containsAny t ["personalized", "customized", "tailored", "for you"] then
    ⟨e.id, "personalization", 3⟩
  else if containsAny t ["logo", "badge", "icon", "image"] then
    ⟨e.id, "visual", 1⟩
  else ⟨e.id, "visual", 1⟩

/-- The result payload of `assessBoostElements` (lines 588-592). -/
structure BoostResult where
  classifiedBoosts : List ClassifiedBoost
  stepBoostTotal : Nat
deriving DecidableEq, Inhabited

/-- `handle_assess_boost_elements_fast` (lines 532-596): classify every
element and total the scores.  `stepIndex` and `categories` are read but
never used by the classification. -/
def handle_assess_boost_elements_fast (elements : List BoostElement) : BoostResult :=
  let cs := elements.map classifyElement
  { classifiedBoosts := cs, stepBoostTotal := (cs.map ClassifiedBoost.score).sum }

/-! ## Concrete inputs used in scenario theorems and counterexamples -/

/-- A step with observed CR 0.5 and no `CR_s` key. -/
def stepHalf : Step := { stepIndex := some 0, observedCR := some (1/2) }

/-- A step with observed CR 0.4 and no `CR_s` key. -/
def stepTwoFifths : Step := { stepIndex := some 1, observedCR := some (2/5) }

/-- The specification scenario's two steps, observedCR = [0.5, 0.4],
carrying only the `observedCR` key. -/
def twoSteps : List Step := [stepHalf, stepTwoFifths]

/-- The scenario's first step with `CR_s` equal to its observed CR. -/
def stepHalfCR : Step := { stepIndex := some 0, observedCR := some (1/2), CR_s := some (1/2) }

/-- The scenario's second step with `CR_s` equal to its observed CR. -/
def stepTwoFifthsCR : Step := { stepIndex := some 1, observedCR := some (2/5), CR_s := some (2/5) }

/-- The scenario's two steps with `CR_s` keys matching their observed CRs. -/
def twoStepsCR : List Step := [stepHalfCR, stepTwoFifthsCR]

/-- A suggestion with a given uplift estimate. -/
def plainSuggestion (u : ℚ) : Suggestion :=
  { suggestion := "s", reasoning := "r", confidence := 7/10, estimated_uplift_pp := u }

/-- Suggestion table giving step 0 an average uplift of +10pp and step 1
an uplift of 0, realizing the scenario of the spec. -/
def scenarioTable : List Assessment :=
  [{ stepIndex := 0, frameworks := [("PAS", plainSuggestion 10)] },
   { stepIndex := 1, frameworks := [("PAS", plainSuggestion 0)] }]

/-- An assessment in which one framework estimates +100pp and another 0pp
for the same single step. -/
def mixedA : Assessment :=
  { stepIndex := 0, frameworks := [("PAS", plainSuggestion 100), ("Fogg", plainSuggestion 0)] }

/-- Suggestion table holding just `mixedA`. -/
def mixedTable : List Assessment := [mixedA]

/-- A single step with observed CR 1. -/
def stepFull : Step := { stepIndex := some 0, observedCR := some 1 }

/-- A constant stream of draws, value 3 (inside `uniform(1,5)`'s range). -/
def drawsConst3 : Nat → ℚ := fun _ => 3

/-- Draws giving step 0 motivation/trigger 1 and step 1 the value 5. -/
def drawsLowHigh : Nat → ℚ := fun n => if n < 2 then 1 else 5

/-- Draws giving step 0 motivation/trigger 5 and step 1 the value 1. -/
def drawsHighLow : Nat → ℚ := fun n => if n < 2 then 5 else 1

/-- Comparison definition following claim C4's words (not the source): clamp
each framework's uplift to [-30, 30] individually, then take the
arithmetic mean and convert to a decimal. -/
def claimClampEachThenAverage (a : Assessment) : ℚ :=
  if a.frameworks.length > 0 then
    ((a.frameworks.map (fun p => clampQ (-30) 30 p.2.estimated_uplift_pp)).sum
      / a.frameworks.length) / 100
  else 0

/-- The concrete result of the per-step assessment on `mixedTable`. -/
def mixedRes : AssessResult :=
  (assessStepsCore [stepHalfCR] ["PAS", "Fogg"] mixedTable).getD default

/-- The concrete result of the per-step assessment on the scenario. -/
def scenarioRes : AssessResult :=
  (assessStepsCore twoStepsCR ["PAS"] scenarioTable).getD default

/-- Three steps, used for the missing-"JTBD"-on-step-2 scenario. -/
def threeSteps : List Step := [stepHalf, stepTwoFifths, stepHalf]

/-- A table whose step 2 lacks a "JTBD" entry. -/
def jtbdTable : List Assessment :=
  [{ stepIndex := 0, frameworks := [("JTBD", plainSuggestion 1)] },
   { stepIndex := 1, frameworks := [("JTBD", plainSuggestion 1)] },
   { stepIndex := 2, frameworks := [("PAS", plainSuggestion 1)] }]

/-- Concrete boost elements. -/
def boostElems : List BoostElement :=
  [{ id := "a", text := "5-star ratings from customers" },
   { id := "b", text := "plain banner" }]

/-- A boost element with upper-case text. -/
def elemUpper : BoostElement := { id := "x", text := "Buy NOW" }

/-- The same boost element with lower-case text. -/
def elemLower : BoostElement := { id := "x", text := "buy now" }

/-! ## Helper lemmas -/

attribute [local semireducible] Rat.add Rat.mul Rat.sub Rat.inv Rat.ofScientific

theorem clampQ_bounds {lo hi : ℚ} (x : ℚ) (h : lo ≤ hi) :
    lo ≤ clampQ lo hi x ∧ clampQ lo hi x ≤ hi := by
  unfold clampQ
  constructor
  · exact le_max_left _ _
  · exact max_le h (min_le_left _ _)

theorem clampQ_eq_self {lo hi x : ℚ} (h1 : lo ≤ x) (h2 : x ≤ hi) : clampQ lo hi x = x := by
  unfold clampQ
  rw [min_eq_right h2, max_eq_right h1]

theorem insertDescBy_perm {α : Type} (key : α → ℚ) (x : α) (l : List α) :
    insertDescBy key x l ~ x :: l := by
  induction l with
  | nil => rfl
  | cons y ys ih =>
    unfold insertDescBy
    by_cases h : key y ≤ key x
    · rw [if_pos h]
    · rw [if_neg h]
      exact (ih.cons y).trans (List.Perm.swap x y ys)

theorem sortDescBy_perm {α : Type} (key : α → ℚ) (l : List α) :
    sortDescBy key l ~ l := by
  induction l with
  | nil => rfl
  | cons x xs ih =>
    unfold sortDescBy
    exact (insertDescBy_perm key x (sortDescBy key xs)).trans (ih.cons x)

theorem insertDescBy_pairwise {α : Type} (key : α → ℚ) (x : α) {l : List α}
    (h : l.Pairwise (fun a b => key b ≤ key a)) :
    (insertDescBy key x l).Pairwise (fun a b => key b ≤ key a) := by
  induction l with
  | nil => simp [insertDescBy]
  | cons y ys ih =>
    rcases List.pairwise_cons.mp h with ⟨hy, hys⟩
    unfold insertDescBy
    by_cases hxy : key y ≤ key x
    · rw [if_pos hxy]
      refine List.pairwise_cons.mpr ⟨?_, h⟩
      intro z hz
      rcases List.mem_cons.mp hz with rfl | hz2
      · exact hxy
      · exact le_trans (hy z hz2) hxy
    · rw [if_neg hxy]
      refine List.pairwise_cons.mpr ⟨?_, ih hys⟩
      intro z hz
      have hz2 := (insertDescBy_perm key x ys).mem_iff.mp hz
      rcases List.mem_cons.mp hz2 with rfl | hz3
      · exact le_of_lt (lt_of_not_le hxy)
      · exact hy z hz3

theorem sortDescBy_pairwise {α : Type} (key : α → ℚ) (l : List α) :
    (sortDescBy key l).Pairwise (fun a b => key b ≤ key a) := by
  induction l with
  | nil => simp [sortDescBy]
  | cons x xs ih => exact insertDescBy_pairwise key x ih

theorem sublist_insertDescBy {α : Type} (key : α → ℚ) (x : α) (l : List α) :
    l <+ insertDescBy key x l := by
  induction l with
  | nil => simp [insertDescBy]
  | cons y ys ih =>
    unfold insertDescBy
    by_cases h : key y ≤ key x
    · rw [if_pos h]
      exact (List.sublist_cons_self x (y :: ys))
    · rw [if_neg h]
      exact ih.cons₂ y

theorem pair_sublist_insertDescBy {α : Type} (key : α → ℚ) {x b : α} {l : List α}
    (hb : b ∈ l) (hk : key b ≤ key x) : [x, b] <+ insertDescBy key x l := by
  induction l with
  | nil => cases hb
  | cons y ys ih =>
    unfold insertDescBy
    by_cases h : key y ≤ key x
    · rw [if_pos h]
      have : [b] <+ y :: ys := List.singleton_sublist.mpr hb
      exact this.cons₂ x
    · rw [if_neg h]
      rcases List.mem_cons.mp hb with rfl | hb'
      · exact absurd hk (fun hk => h hk)
      · exact (ih hb').cons y

theorem sortDescBy_stable {α : Type} (key : α → ℚ) {l : List α} {a b : α}
    (h : [a, b] <+ l) (hk : key b ≤ key a) : [a, b] <+ sortDescBy key l := by
  induction l with
  | nil => cases h
  | cons x xs ih =>
    cases h with
    | cons _ h' =>
      exact (ih h').trans (sublist_insertDescBy key x (sortDescBy key xs))
    | cons₂ _ h' =>
      have hb : b ∈ sortDescBy key xs :=
        (sortDescBy_perm key xs).mem_iff.mpr (List.singleton_sublist.mp h')
      exact pair_sublist_insertDescBy key hb hk

theorem sublist_pair_antisym {α : Type} {l : List α} {a b : α} (hnd : l.Nodup)
    (h1 : [a, b] <+ l) (h2 : [b, a] <+ l) : a = b := by
  induction l with
  | nil => cases h1
  | cons x xs ih =>
    rcases List.nodup_cons.mp hnd with ⟨hx, hxs⟩
    cases h1 with
    | cons _ h1' =>
      cases h2 with
      | cons _ h2' => exact ih hxs h1' h2'
      | cons₂ _ h2' =>
        have hb : b ∈ xs := h1'.subset (by simp)
        exact absurd hb hx
    | cons₂ _ h1' =>
      cases h2 with
      | cons _ h2' =>
        have ha : a ∈ xs := h2'.subset (by simp)
        exact absurd ha hx
      | cons₂ _ h2' => rfl

theorem pairwise_lt_pair_sublist {α : Type} {f : α → Nat} {l : List α} {a b : α}
    (hp : l.Pairwise (fun u v => f u < f v)) (ha : a ∈ l) (hb : b ∈ l)
    (hab : f a < f b) : [a, b] <+ l := by
  induction l with
  | nil => cases ha
  | cons x xs ih =>
    rcases List.pairwise_cons.mp hp with ⟨hx, hxs⟩
    rcases List.mem_cons.mp ha with rfl | ha'
    · rcases List.mem_cons.mp hb with rfl | hb'
      · exact absurd hab (lt_irrefl _)
      · exact (List.singleton_sublist.mpr hb').cons₂ a
    · rcases List.mem_cons.mp hb with rfl | hb'
      · exact absurd (hx a ha') (fun h => absurd hab (fun h2 => lt_asymm h h2))
      · exact (ih hxs ha' hb').cons x

theorem pairwise_lt_inj {α : Type} {f : α → Nat} {l : List α} {a b : α}
    (hp : l.Pairwise (fun u v => f u < f v)) (ha : a ∈ l) (hb : b ∈ l)
    (hfab : f a = f b) : a = b := by
  induction l with
  | nil => cases ha
  | cons x xs ih =>
    rcases List.pairwise_cons.mp hp with ⟨hx, hxs⟩
    rcases List.mem_cons.mp ha with rfl | ha'
    · rcases List.mem_cons.mp hb with rfl | hb'
      · rfl
      · exact absurd (hx b hb') (by omega)
    · rcases List.mem_cons.mp hb with rfl | hb'
      · exact absurd (hx a ha') (by omega)
      · exact ih hxs ha' hb'

theorem pairwise_lt_nodup {α : Type} {f : α → Nat} {l : List α}
    (hp : l.Pairwise (fun u v => f u < f v)) : l.Nodup :=
  hp.imp (fun h => by
    intro hEq
    rw [hEq] at h
    exact lt_irrefl _ h)

theorem prod_mem_unit (l : List ℚ) (h : ∀ x ∈ l, 0 ≤ x ∧ x ≤ 1) :
    0 ≤ l.prod ∧ l.prod ≤ 1 := by
  induction l with
  | nil => simp
  | cons a t ih =>
    have ha := h a (by simp)
    have ht := ih (fun x hx => h x (List.mem_cons_of_mem a hx))
    rw [List.prod_cons]
    constructor
    · exact mul_nonneg ha.1 ht.1
    · calc a * t.prod ≤ 1 * 1 := by
            exact mul_le_mul ha.2 ht.2 ht.1 (by norm_num)
        _ = 1 := by norm_num

theorem sum_bounds (l : List ℚ) (lo hi : ℚ) (h : ∀ x ∈ l, lo ≤ x ∧ x ≤ hi) :
    lo * l.length ≤ l.sum ∧ l.sum ≤ hi * l.length := by
  induction l with
  | nil => simp
  | cons a t ih =>
    have ha := h a (by simp)
    have ht := ih (fun x hx => h x (List.mem_cons_of_mem a hx))
    rw [List.sum_cons, List.length_cons]
    push_cast
    constructor
    · nlinarith [ht.1, ha.1]
    · nlinarith [ht.2, ha.2]

theorem getD_range_map {α : Type} (l : List α) (dflt : α) :
    (List.range l.length).map (fun i => l.getD i dflt) = l := by
  apply List.ext_getElem?
  intro i
  by_cases h : i < l.length
  · rw [List.getElem?_map, List.getElem?_range h]
    simp [List.getD_eq_getElem?_getD, List.getElem?_eq_getElem h]
  · rw [List.getElem?_map]
    rw [List.getElem?_eq_none (le_of_not_lt (by simpa using h)), List.getElem?_eq_none]
    · rfl
    · exact le_of_not_lt h

theorem optionsAll_map_some {α β : Type} (l : List α) (f : α → Option β) (g : α → β)
    (h : ∀ x ∈ l, f x = some (g x)) : optionsAll (l.map f) = some (l.map g) := by
  induction l with
  | nil => rfl
  | cons a t ih =>
    have ha := h a (by simp)
    rw [List.map_cons, ha]
    show (optionsAll (t.map f)).map (g a :: ·) = some ((a :: t).map g)
    rw [ih (fun x hx => h x (List.mem_cons_of_mem a hx))]
    rfl

theorem lookup_append_of_some {α β : Type} [BEq α] {l1 : List (α × β)} (l2 : List (α × β))
    {k : α} {v : β} (h : l1.lookup k = some v) : (l1 ++ l2).lookup k = some v := by
  induction l1 with
  | nil => simp at h
  | cons p t ih =>
    rcases p with ⟨a, b⟩
    rw [List.cons_append]
    by_cases hk : (k == a) = true
    · simpa [List.lookup, hk] using (by simpa [List.lookup, hk] using h : b = v)
    · rw [Bool.not_eq_true] at hk
      simp only [List.lookup, hk] at h ⊢
      exact ih h

theorem lookup_append_of_none {α β : Type} [BEq α] {l1 : List (α × β)} (l2 : List (α × β))
    {k : α} (h : l1.lookup k = none) : (l1 ++ l2).lookup k = l2.lookup k := by
  induction l1 with
  | nil => simp
  | cons p t ih =>
    rcases p with ⟨a, b⟩
    rw [List.cons_append]
    by_cases hk : (k == a) = true
    · simp [List.lookup, hk] at h
    · rw [Bool.not_eq_true] at hk
      simp only [List.lookup, hk] at h ⊢
      exact ih h

theorem transformAll_cons (steps : List Step) (li : Nat) (a0 : Assessment)
    (rest : List Assessment) (c : ℚ) :
    transformAll steps li (a0 :: rest) c =
      ((transformOne steps li c a0).1 ::
        (transformAll steps li rest (transformOne steps li c a0).2).1,
       (transformAll steps li rest (transformOne steps li c a0).2).2) := rfl

theorem transformOne_spec (steps : List Step) (li : Nat) (c : ℚ) (a : Assessment) :
    ((transformOne steps li c a).1.stepIndex = a.stepIndex) ∧
    ((transformOne steps li c a).1.base_CR_s =
      (match steps.find? (fun s => s.stepIndex.getD li == a.stepIndex) with
        | some s => s.CR_s.getD (1/2)
        | none => 1/2)) ∧
    ((transformOne steps li c a).1.estimated_uplift = clampQ (-(3/10)) (3/10)
      ((if a.frameworks.length > 0 then
          (a.frameworks.map (fun p => p.2.estimated_uplift_pp)).sum / a.frameworks.length
        else 0) / 100)) ∧
    ((transformOne steps li c a).1.new_CR_s =
      clampQ 0 1 ((transformOne steps li c a).1.base_CR_s + (transformOne steps li c a).1.estimated_uplift)) ∧
    ((transformOne steps li c a).1.cumulative_new_CR_s = c * (transformOne steps li c a).1.new_CR_s) ∧
    ((transformOne steps li c a).2 = (transformOne steps li c a).1.cumulative_new_CR_s) :=
  ⟨rfl, rfl, rfl, rfl, rfl, rfl⟩

theorem transformAll_getElem? (steps : List Step) (li : Nat) :
    ∀ (as : List Assessment) (c : ℚ) (i : Nat) (a : Assessment), as[i]? = some a →
      ∃ c2, (transformAll steps li as c).1[i]? = some (transformOne steps li c2 a).1 := by
  intro as
  induction as with
  | nil => intro c i a h; simp at h
  | cons a0 rest ih =>
    intro c i a h
    cases i with
    | zero =>
      simp only [List.getElem?_cons_zero, Option.some_inj] at h
      subst h
      exact ⟨c, by rw [transformAll_cons]; simp⟩
    | succ i =>
      simp only [List.getElem?_cons_succ] at h
      rcases ih (transformOne steps li c a0).2 i a h with ⟨c2, hc2⟩
      exact ⟨c2, by rw [transformAll_cons]; simpa using hc2⟩

theorem transformAll_bounds (steps : List Step) (li : Nat) :
    ∀ (as : List Assessment) (c : ℚ), 0 ≤ c → c ≤ 1 →
      (∀ t ∈ (transformAll steps li as c).1,
        (0 ≤ t.new_CR_s ∧ t.new_CR_s ≤ 1) ∧
        (0 ≤ t.cumulative_new_CR_s ∧ t.cumulative_new_CR_s ≤ 1)) ∧
      (0 ≤ (transformAll steps li as c).2 ∧ (transformAll steps li as c).2 ≤ 1) := by
  intro as
  induction as with
  | nil => intro c h0 h1; exact ⟨by simp [transformAll], by simpa [transformAll] using ⟨h0, h1⟩⟩
  | cons a0 rest ih =>
    intro c h0 h1
    have hnew : 0 ≤ (transformOne steps li c a0).1.new_CR_s ∧
        (transformOne steps li c a0).1.new_CR_s ≤ 1 := by
      rw [(transformOne_spec steps li c a0).2.2.2.1]
      exact clampQ_bounds _ (by norm_num)
    have hcum : 0 ≤ (transformOne steps li c a0).1.cumulative_new_CR_s ∧
        (transformOne steps li c a0).1.cumulative_new_CR_s ≤ 1 := by
      rw [(transformOne_spec steps li c a0).2.2.2.2.1]
      constructor
      · exact mul_nonneg h0 hnew.1
      · calc c * (transformOne steps li c a0).1.new_CR_s ≤ 1 * 1 :=
              mul_le_mul h1 hnew.2 hnew.1 (by norm_num)
          _ = 1 := by norm_num
    have hc2 : (transformOne steps li c a0).2 = (transformOne steps li c a0).1.cumulative_new_CR_s :=
      (transformOne_spec steps li c a0).2.2.2.2.2
    have ihr := ih (transformOne steps li c a0).2 (hc2 ▸ hcum.1) (hc2 ▸ hcum.2)
    rw [transformAll_cons]
    refine ⟨?_, ihr.2⟩
    intro t ht
    rcases List.mem_cons.mp ht with rfl | ht'
    · exact ⟨hnew, hcum⟩
    · exact ihr.1 t ht'

theorem assessStepsCore_eq_some {steps : List Step} {fws : List String}
    {assessments : List Assessment} {res : AssessResult}
    (h : assessStepsCore steps fws assessments = some res) :
    res.assessments = (transformAll steps (steps.length - 1) assessments 1).1 ∧
    res.predicted_CR_total = (transformAll steps (steps.length - 1) assessments 1).2 ∧
    res.order_recommendations = sortDescBy OrderRec.expected_CR_total (fws.map (fun fw =>
      ({ framework := fw,
         recommendedOrder := List.range steps.length,
         expected_CR_total := expectedCRTotal steps assessments fw,
         expectedUplift := avgUpliftAcross assessments fw } : OrderRec))) := by
  unfold assessStepsCore at h
  split at h
  · cases h
  · rw [Option.some_inj] at h
    subst h
    exact ⟨rfl, rfl, rfl⟩

theorem obsCR_bounds {steps : List Step}
    (hobs : ∀ s ∈ steps, ∀ cr, s.observedCR = some cr → 0 ≤ cr ∧ cr ≤ 1)
    {s : Step} (hs : s ∈ steps) : 0 ≤ obsCR s ∧ obsCR s ≤ 1 := by
  unfold obsCR
  cases hcr : s.observedCR with
  | none => norm_num
  | some cr => simpa using hobs s hs cr hcr

theorem expectedCRTotal_bounds {steps : List Step}
    (hobs : ∀ s ∈ steps, ∀ cr, s.observedCR = some cr → 0 ≤ cr ∧ cr ≤ 1)
    (assessments : List Assessment) (fw : String) :
    0 ≤ expectedCRTotal steps assessments fw ∧ expectedCRTotal steps assessments fw ≤ 1 := by
  unfold expectedCRTotal
  apply prod_mem_unit
  intro x hx
  rcases List.mem_map.mp hx with ⟨p, hp, rfl⟩
  have hps : p.2 ∈ steps := by
    have := List.enumFrom_map_snd 0 steps
    exact this ▸ List.mem_map_of_mem Prod.snd hp
  unfold enhancedCR
  cases assessments.find? (fun a => a.stepIndex == p.1) with
  | none => exact obsCR_bounds hobs hps
  | some a => exact clampQ_bounds _ (by norm_num)

theorem lt_length_of_getElem? {α : Type} {l : List α} {i : Nat} {a : α}
    (h : l[i]? = some a) : i < l.length := by
  by_contra hn
  rw [List.getElem?_eq_none (le_of_not_lt hn)] at h
  cases h

theorem foggMetrics_map_stepIndex (steps : List Step) (d : Nat → ℚ) :
    (foggMetrics steps d).map FoggMetric.stepIndex = List.range steps.length := by
  unfold foggMetrics
  rw [List.map_map]
  have heq : (FoggMetric.stepIndex ∘ fun p : Nat × Step => foggMetricOf d p.1 p.2) = Prod.fst := by
    funext p
    rfl
  rw [heq, List.range_eq_range']
  exact List.enumFrom_map_fst 0 steps

theorem foggMetrics_length (steps : List Step) (d : Nat → ℚ) :
    (foggMetrics steps d).length = steps.length := by
  have := congrArg List.length (foggMetrics_map_stepIndex steps d)
  simpa using this

theorem foggMetrics_pairwise (steps : List Step) (d : Nat → ℚ) :
    (foggMetrics steps d).Pairwise (fun a b => a.stepIndex < b.stepIndex) := by
  have h := List.pairwise_lt_range steps.length
  rw [← foggMetrics_map_stepIndex steps d] at h
  exact List.pairwise_map.mp h

theorem foggRecommendedOrder_perm (steps : List Step) (d : Nat → ℚ) :
    (foggRecommendedOrder steps d).Perm (List.range steps.length) := by
  unfold foggRecommendedOrder foggSorted
  calc (sortDescBy FoggMetric.fogg_score (foggMetrics steps d)).map FoggMetric.stepIndex
      ~ (foggMetrics steps d).map FoggMetric.stepIndex :=
        (sortDescBy_perm FoggMetric.fogg_score (foggMetrics steps d)).map FoggMetric.stepIndex
    _ = List.range steps.length := foggMetrics_map_stepIndex steps d

theorem foggCRTotal_eq_baseline (steps : List Step) (d : Nat → ℚ) :
    foggCRTotal steps d = baselineCR steps := by
  unfold foggCRTotal baselineCR
  have hperm := (foggRecommendedOrder_perm steps d).map (fun i => obsCR (steps.getD i {}))
  rw [hperm.prod_eq]
  have : (List.range steps.length).map (fun i => obsCR (steps.getD i {}))
      = ((List.range steps.length).map (fun i => steps.getD i {})).map obsCR := by
    rw [List.map_map]
    rfl
  rw [this, getD_range_map]

theorem mul3_bounds {m a t : ℚ} (hm : 1 ≤ m ∧ m ≤ 5) (ha : 1 ≤ a ∧ a ≤ 5)
    (ht : 1 ≤ t ∧ t ≤ 5) : 1 ≤ m * a * t ∧ m * a * t ≤ 125 := by
  obtain ⟨hm1, hm5⟩ := hm
  obtain ⟨ha1, ha5⟩ := ha
  obtain ⟨ht1, ht5⟩ := ht
  have hma1 : 1 ≤ m * a := by nlinarith
  have hma25 : m * a ≤ 25 := by nlinarith
  constructor
  · nlinarith
  · nlinarith

theorem foggMetric_score_bounds {d : Nat → ℚ} (hd : ∀ n, 1 ≤ d n ∧ d n ≤ 5)
    (steps : List Step) : ∀ m ∈ foggMetrics steps d, 1 ≤ m.fogg_score ∧ m.fogg_score ≤ 125 := by
  intro m hm
  rcases List.mem_map.mp hm with ⟨p, _, rfl⟩
  have hmot := hd (2 * p.1)
  have htr := hd (2 * p.1 + 1)
  have hab : 1 ≤ max 1 (min 5 (6 - (p.2.Qs.getD 2 + p.2.Is.getD 2 + p.2.Ds.getD 2) / 3)) ∧
      max 1 (min 5 (6 - (p.2.Qs.getD 2 + p.2.Is.getD 2 + p.2.Ds.getD 2) / 3)) ≤ 5 := by
    constructor
    · exact le_max_left _ _
    · exact max_le (by norm_num) (min_le_left _ _)
  exact mul3_bounds hmot hab htr

theorem foggAvgScore_bounds {d : Nat → ℚ} (hd : ∀ n, 1 ≤ d n ∧ d n ≤ 5)
    {steps : List Step} (hne : steps ≠ []) :
    1 ≤ foggAvgScore steps d ∧ foggAvgScore steps d ≤ 125 := by
  unfold foggAvgScore
  have hlen : (foggMetrics steps d).length = steps.length := foggMetrics_length steps d
  have hpos : 0 < steps.length := List.length_pos.mpr hne
  have hb := sum_bounds ((foggMetrics steps d).map FoggMetric.fogg_score) 1 125 (by
    intro x hx
    rcases List.mem_map.mp hx with ⟨m, hm, rfl⟩
    exact foggMetric_score_bounds hd steps m hm)
  rw [List.length_map, hlen] at hb
  rw [hlen]
  have hl : (0 : ℚ) < (steps.length : ℚ) := by exact_mod_cast hpos
  constructor
  · rw [le_div_iff₀ hl]
    linarith [hb.1]
  · rw [div_le_iff₀ hl]
    linarith [hb.2]

theorem foggUplift_value {d : Nat → ℚ} (hd : ∀ n, 1 ≤ d n ∧ d n ≤ 5)
    {steps : List Step} (hne : steps ≠ []) :
    foggUplift steps d = (foggAvgScore steps d / 125) * (3/2) ∧
    (-30 : ℚ) ≤ foggUplift steps d ∧ foggUplift steps d ≤ 30 := by
  have havg := foggAvgScore_bounds hd hne
  have heq : foggUplift steps d = (foggAvgScore steps d / 125) * (3/2) := by
    unfold foggUplift
    rw [foggCRTotal_eq_baseline]
    ring
  refine ⟨heq, ?_, ?_⟩
  · rw [heq]
    nlinarith [havg.1]
  · rw [heq]
    nlinarith [havg.2]

theorem funnelCore_fogg (steps : List Step) (fws : List String) (as : List Assessment)
    (d : Nat → ℚ) (hF : "Fogg" ∈ fws) (hne : steps ≠ []) :
    funnelCore steps fws as d = some
      { baselineCR := baselineCR steps,
        variants := sortDescBy Variant.uplift_pp
          (fws.map (variantFor steps as) ++ [foggVariant steps d]) } := by
  unfold funnelCore
  rw [if_pos hF, if_neg (by simpa using hne)]

theorem funnelCore_nofogg (steps : List Step) (fws : List String) (as : List Assessment)
    (d : Nat → ℚ) (hF : "Fogg" ∉ fws) :
    funnelCore steps fws as d = some
      { baselineCR := baselineCR steps,
        variants := sortDescBy Variant.uplift_pp (fws.map (variantFor steps as)) } := by
  unfold funnelCore
  rw [if_neg hF]

theorem mockFrameworkList_spec (i : Nat) (fws : List String)
    (hknown : ∀ f ∈ fws, (FRAMEWORK_FOCUSES.lookup f).isSome) :
    ∃ fs, mockFrameworkList i fws = some fs ∧
      ∀ fw focus, fw ∈ fws → FRAMEWORK_FOCUSES.lookup fw = some focus →
        fs.lookup fw = some (mockSuggestion fw i focus) := by
  induction fws with
  | nil => exact ⟨[], rfl, by simp⟩
  | cons fw0 rest ih =>
    obtain ⟨focus0, hf0⟩ := Option.isSome_iff_exists.mp (hknown fw0 (by simp))
    obtain ⟨fs, hfs, hlook⟩ := ih (fun f hf => hknown f (List.mem_cons_of_mem _ hf))
    refine ⟨(fw0, mockSuggestion fw0 i focus0) :: fs, ?_, ?_⟩
    · unfold mockFrameworkList
      rw [hf0, hfs]
      rfl
    · intro fw focus hmem hfoc
      by_cases hfw : fw = fw0
      · subst hfw
        rw [hfoc] at hf0
        rw [Option.some_inj] at hf0
        subst hf0
        simp
      · have hr : fw ∈ rest := by
          rcases List.mem_cons.mp hmem with h | h
          · exact absurd h hfw
          · exact h
        have hne : (fw == fw0) = false := by
          simp [hfw]
        simp only [List.lookup, hne]
        exact hlook fw focus hr hfoc

theorem create_mock_spec (steps : List Step) (fws : List String)
    (hknown : ∀ f ∈ fws, (FRAMEWORK_FOCUSES.lookup f).isSome) :
    ∃ ms, create_mock_analysis steps fws = some ms ∧ ms.length = steps.length ∧
      ∀ i, i < steps.length → ∃ a, ms[i]? = some a ∧ a.stepIndex = i ∧
        ∀ fw focus, fw ∈ fws → FRAMEWORK_FOCUSES.lookup fw = some focus →
          a.frameworks.lookup fw = some (mockSuggestion fw i focus) := by
  have hf : ∀ i ∈ List.range steps.length,
      ((mockFrameworkList i fws).map (fun fs => ({ stepIndex := i, frameworks := fs } : Assessment)))
        = some ({ stepIndex := i, frameworks := (mockFrameworkList i fws).getD [] } : Assessment) := by
    intro i _
    obtain ⟨fs, hfs, _⟩ := mockFrameworkList_spec i fws hknown
    rw [hfs]
    rfl
  have hmock : create_mock_analysis steps fws = some ((List.range steps.length).map
      (fun i => ({ stepIndex := i, frameworks := (mockFrameworkList i fws).getD [] } : Assessment))) := by
    unfold create_mock_analysis
    exact optionsAll_map_some _ _ _ hf
  refine ⟨_, hmock, by simp, ?_⟩
  intro i hi
  refine ⟨{ stepIndex := i, frameworks := (mockFrameworkList i fws).getD [] }, ?_, rfl, ?_⟩
  · rw [List.getElem?_map, List.getElem?_range hi]
    rfl
  · intro fw focus hmem hfoc
    obtain ⟨fs, hfs, hlook⟩ := mockFrameworkList_spec i fws hknown
    show ((mockFrameworkList i fws).getD []).lookup fw = _
    rw [hfs]
    exact hlook fw focus hmem hfoc

theorem fillFrameworks_some (fws : List String)
    (hknown : ∀ f ∈ fws, (FRAMEWORK_FOCUSES.lookup f).isSome) :
    ∀ cur, ∃ res, fillFrameworks cur fws = some res := by
  induction fws with
  | nil => exact fun cur => ⟨cur, rfl⟩
  | cons fw0 rest ih =>
    intro cur
    obtain ⟨focus0, hf0⟩ := Option.isSome_iff_exists.mp (hknown fw0 (by simp))
    have ih' := ih (fun f hf => hknown f (List.mem_cons_of_mem _ hf))
    unfold fillFrameworks
    by_cases h0 : (cur.lookup fw0).isSome
    · rw [if_pos h0]
      exact ih' cur
    · rw [if_neg h0, hf0]
      exact ih' _

theorem fillFrameworks_preserves {fws : List String} :
    ∀ {cur res : List (String × Suggestion)}, fillFrameworks cur fws = some res →
      ∀ {fw s}, cur.lookup fw = some s → res.lookup fw = some s := by
  induction fws with
  | nil =>
    intro cur res h fw s hs
    rw [show fillFrameworks cur [] = some cur from rfl, Option.some_inj] at h
    subst h
    exact hs
  | cons fw0 rest ih =>
    intro cur res h fw s hs
    unfold fillFrameworks at h
    by_cases h0 : (cur.lookup fw0).isSome
    · rw [if_pos h0] at h
      exact ih h hs
    · rw [if_neg h0] at h
      cases hl : FRAMEWORK_FOCUSES.lookup fw0 with
      | none => rw [hl] at h; cases h
      | some focus0 =>
        rw [hl] at h
        exact ih h (lookup_append_of_some _ hs)

theorem fillFrameworks_fills {fws : List String} :
    ∀ {cur res : List (String × Suggestion)}, fillFrameworks cur fws = some res →
      ∀ {fw focus}, fw ∈ fws → FRAMEWORK_FOCUSES.lookup fw = some focus →
        cur.lookup fw = none → res.lookup fw = some (fallbackSuggestion fw focus) := by
  induction fws with
  | nil => intro cur res h fw focus hmem; cases hmem
  | cons fw0 rest ih =>
    intro cur res h fw focus hmem hfoc hnone
    unfold fillFrameworks at h
    by_cases h0 : (cur.lookup fw0).isSome
    · rw [if_pos h0] at h
      have hr : fw ∈ rest := by
        rcases List.mem_cons.mp hmem with rfl | hmm
        · rw [hnone] at h0
          cases h0
        · exact hmm
      exact ih h hr hfoc hnone
    · rw [if_neg h0] at h
      cases hl : FRAMEWORK_FOCUSES.lookup fw0 with
      | none => rw [hl] at h; cases h
      | some focus0 =>
        rw [hl] at h
        by_cases hfw : fw = fw0
        · subst hfw
          rw [hfoc, Option.some_inj] at hl
          subst hl
          have hcur2 : (cur ++ [(fw, fallbackSuggestion fw focus)]).lookup fw
              = some (fallbackSuggestion fw focus) := by
            rw [lookup_append_of_none _ hnone]
            simp
          exact fillFrameworks_preserves h hcur2
        · have hr : fw ∈ rest := by
            rcases List.mem_cons.mp hmem with h' | h'
            · exact absurd h' hfw
            · exact h'
          have hcur2 : (cur ++ [(fw0, fallbackSuggestion fw0 focus0)]).lookup fw = none := by
            rw [lookup_append_of_none _ hnone]
            have hne : (fw == fw0) = false := by simp [hfw]
            simp [List.lookup, hne]
          exact ih h hr hfoc hcur2

theorem fillMissingFrom_succ (fws : List String) (i k : Nat) (acc : List Assessment) :
    fillMissingFrom fws i (k+1) acc =
      (let acc2 := if acc.length ≤ i then acc ++ [{ stepIndex := i, frameworks := [] }] else acc
       match acc2[i]? with
       | some a =>
         match fillFrameworks a.frameworks fws with
         | some fs => fillMissingFrom fws (i+1) k (acc2.set i { a with frameworks := fs })
         | none => none
       | none => none) := rfl

theorem fillMissingFrom_spec (fws : List String)
    (hknown : ∀ f ∈ fws, (FRAMEWORK_FOCUSES.lookup f).isSome) :
    ∀ (k i : Nat) (acc : List Assessment), i ≤ acc.length →
      ∃ res, fillMissingFrom fws i k acc = some res ∧
        ∀ j a, acc[j]? = some a →
          ∃ a', res[j]? = some a' ∧ a'.stepIndex = a.stepIndex ∧
            (∀ fw s, a.frameworks.lookup fw = some s → a'.frameworks.lookup fw = some s) ∧
            (i ≤ j → j < i + k →
              ∀ fw focus, fw ∈ fws → FRAMEWORK_FOCUSES.lookup fw = some focus →
                a.frameworks.lookup fw = none →
                a'.frameworks.lookup fw = some (fallbackSuggestion fw focus)) := by
  intro k
  induction k with
  | zero =>
    intro i acc _
    refine ⟨acc, rfl, ?_⟩
    intro j a h
    exact ⟨a, h, rfl, fun _ _ h' => h', fun h1 h2 => absurd h2 (by omega)⟩
  | succ k ih =>
    intro i acc hacc
    by_cases hl : acc.length ≤ i
    · -- the Python loop appends {"stepIndex": i, "frameworks": {}} at position i
      have hieq : acc.length = i := le_antisymm hl hacc
      have hgeti : (acc ++ [({ stepIndex := i, frameworks := [] } : Assessment)])[i]?
          = some ({ stepIndex := i, frameworks := [] } : Assessment) := by
        rw [List.getElem?_append_right (by omega)]
        rw [hieq]
        simp
      obtain ⟨fs, hfs⟩ := fillFrameworks_some fws hknown ([] : List (String × Suggestion))
      set acc3 := (acc ++ [({ stepIndex := i, frameworks := [] } : Assessment)]).set i
        { stepIndex := i, frameworks := fs } with hacc3
      have hstep : fillMissingFrom fws i (k+1) acc = fillMissingFrom fws (i+1) k acc3 := by
        rw [fillMissingFrom_succ]
        simp only [if_pos hl, hgeti]
        rw [hfs]
      have hlen3 : i + 1 ≤ acc3.length := by
        rw [hacc3]
        simp [hieq]
      obtain ⟨res, hres, hspec⟩ := ih (i+1) acc3 hlen3
      refine ⟨res, by rw [hstep]; exact hres, ?_⟩
      intro j a h
      have hj : j < acc.length := lt_length_of_getElem? h
      have hji : j ≠ i := by omega
      have h3 : acc3[j]? = some a := by
        rw [hacc3, List.getElem?_set_ne (Ne.symm hji), List.getElem?_append_left hj]
        exact h
      obtain ⟨a', hres', hidx, hpres, _⟩ := hspec j a h3
      exact ⟨a', hres', hidx, hpres, fun h1 _ => absurd h1 (by omega)⟩
    · -- position i already exists
      push_neg at hl
      have hgeti : acc[i]? = some (acc.get ⟨i, hl⟩) := List.getElem?_eq_getElem hl
      obtain ⟨fs, hfs⟩ := fillFrameworks_some fws hknown (acc.get ⟨i, hl⟩).frameworks
      set acc3 := acc.set i { acc.get ⟨i, hl⟩ with frameworks := fs } with hacc3
      have hstep : fillMissingFrom fws i (k+1) acc = fillMissingFrom fws (i+1) k acc3 := by
        rw [fillMissingFrom_succ]
        simp only [if_neg (not_le.mpr hl), hgeti, hfs]
      have hlen3 : i + 1 ≤ acc3.length := by
        rw [hacc3]
        simpa using hl
      obtain ⟨res, hres, hspec⟩ := ih (i+1) acc3 hlen3
      refine ⟨res, by rw [hstep]; exact hres, ?_⟩
      intro j a h
      by_cases hji : j = i
      · subst hji
        have ha : a = acc.get ⟨j, hl⟩ := by
          rw [hgeti, Option.some_inj] at h
          exact h.symm
        have h3 : acc3[j]? = some { acc.get ⟨j, hl⟩ with frameworks := fs } := by
          rw [hacc3]
          rw [List.getElem?_set_self (by simpa using hl)]
        obtain ⟨a', hres', hidx, hpres, _⟩ := hspec j _ h3
        refine ⟨a', hres', ?_, ?_, ?_⟩
        · rw [hidx, ha]
        · intro fw s hs
          apply hpres
          show fs.lookup fw = some s
          exact fillFrameworks_preserves hfs (by rw [ha] at hs; exact hs)
        · intro _ _ fw focus hmem hfoc hnone
          apply hpres
          show fs.lookup fw = some (fallbackSuggestion fw focus)
          exact fillFrameworks_fills hfs hmem hfoc (by rw [ha] at hnone; exact hnone)
      · have h3 : acc3[j]? = some a := by
          rw [hacc3, List.getElem?_set_ne (Ne.symm hji)]
          exact h
        obtain ⟨a', hres', hidx, hpres, hfill⟩ := hspec j a h3
        refine ⟨a', hres', hidx, hpres, ?_⟩
        intro h1 h2 fw focus hmem hfoc hnone
        exact hfill (by omega) (by omega) fw focus hmem hfoc hnone

/-! ## Claim theorems -/

/-- Claim C1, counterexample: with identical steps and frameworks but
different streams of `random.uniform(1, 5)` draws, `manusFunnel` produces
different outputs — the Fogg motivation/trigger scores and the values
derived from them (recommended order, uplift, CR_total) are not a
deterministic function of the input payload. -/
theorem manusFunnel_output_depends_on_draws :
    handle_manus_funnel_fast twoSteps ["Fogg"] drawsLowHigh
      ≠ handle_manus_funnel_fast twoSteps ["Fogg"] drawsHighLow := by decide

/-- Claim C1, amended: the scoring pipeline is deterministic except for the
Fogg random sampling — `assessSteps` takes no draws at all, and
`manusFunnel` is independent of the random stream whenever "Fogg" is not
among the requested frameworks. -/
theorem manusFunnel_deterministic_without_fogg (steps : List Step) (fws : List String)
    (d d' : Nat → ℚ) (h : "Fogg" ∉ fws) :
    handle_manus_funnel_fast steps fws d = handle_manus_funnel_fast steps fws d' := by
  unfold handle_manus_funnel_fast
  cases hm : create_mock_analysis steps fws with
  | none => rfl
  | some as =>
    show funnelCore steps fws as d = funnelCore steps fws as d'
    rw [funnelCore_nofogg steps fws as d h, funnelCore_nofogg steps fws as d' h]

/-- Witness for `manusFunnel_deterministic_without_fogg`. -/
theorem manusFunnel_deterministic_without_fogg_witness :
    handle_manus_funnel_fast twoSteps ["PAS"] drawsLowHigh
      = handle_manus_funnel_fast twoSteps ["PAS"] drawsHighLow :=
  manusFunnel_deterministic_without_fogg twoSteps ["PAS"] drawsLowHigh drawsHighLow (by decide)

/-- Claim C2, counterexample: on the scenario steps carrying only
`observedCR` = [0.5, 0.4] (no `CR_s` key) with per-step average uplifts
+10pp and 0, the engine's `predicted_CR_total` is 0.30, not the 0.24 the
claim states — `base_CR_s` is read from the `CR_s` key (default 0.5), not
from the observed CR. -/
theorem scenario_without_CR_s_total_differs :
    ((assessStepsCore twoSteps ["PAS"] scenarioTable).map AssessResult.predicted_CR_total)
      = some (3/10) ∧
    ((assessStepsCore twoSteps ["PAS"] scenarioTable).map AssessResult.predicted_CR_total)
      ≠ some (6/25) := ⟨by decide, by decide⟩

/-- Claim C2, amended: with the scenario's steps additionally carrying
`CR_s` equal to their observed CRs, the engine produces exactly the claimed
values — new_CR_s = [0.6, 0.4], cumulatives [0.6, 0.24],
predicted_CR_total = 0.24 — and `manusFunnel` reports baselineCR = 0.20
from the observed CRs. -/
theorem scenario_with_CR_s_matches :
    ((assessStepsCore twoStepsCR ["PAS"] scenarioTable).map (fun r =>
       (r.assessments.map (fun t =>
          (t.stepIndex, t.base_CR_s, t.estimated_uplift, t.new_CR_s, t.cumulative_new_CR_s)),
        r.predicted_CR_total)))
      = some ([(0, 1/2, 1/10, 3/5, 3/5), (1, 2/5, 0, 2/5, 6/25)], 6/25)
    ∧ (handle_manus_funnel_fast twoStepsCR ["PAS"] drawsConst3).map FunnelResult.baselineCR
      = some (1/5) := by
  refine ⟨?_, by decide⟩
  rfl

/-- Claim C3: with zero steps and a framework list containing "Fogg",
`manusFunnel` raises `ZeroDivisionError` computing `avg_fogg_score`
(`sum(...) / len(fogg_steps_with_scores)` with an empty list) instead of
returning the neutral output the claim describes. -/
theorem manusFunnel_zero_steps_fogg_raises :
    handle_manus_funnel_fast ([] : List Step) ["Fogg"] drawsConst3 = none := by decide

/-- Claim C4, counterexample: for a single step with framework uplifts
[+100pp, 0pp], the per-step assessment produces estimated_uplift 0.30
(the raw mean 50pp is converted to a decimal and then clamped), while
clamping each framework's uplift to [-30, 30] before averaging — what the
claim states — would give 0.15. -/
theorem per_step_mean_clamped_after_averaging :
    ((assessStepsCore [stepHalfCR] ["PAS", "Fogg"] mixedTable).map (fun r =>
        r.assessments.map TransformedAssessment.estimated_uplift)) = some [3/10] ∧
    claimClampEachThenAverage mixedA = 3/20 ∧
    (3/10 : ℚ) ≠ 3/20 := ⟨by decide, by decide, by decide⟩

/-- Claim C4, amended: in the order-recommendation path each framework's
uplift is clamped to [-30, 30] individually before conversion and before
the CR product (`expectedCRTotal`), while in the per-step assessment the
frameworks' raw uplifts are averaged first, the mean converted to a
decimal and THEN clamped to [-0.30, 0.30]; in both paths the clamp
precedes all CR arithmetic
(`new_CR_s = clamp(0, 1, base_CR_s + clamped_uplift)`). -/
theorem assess_clamp_semantics (steps : List Step) (fws : List String)
    (assessments : List Assessment) (res : AssessResult) (i : Nat) (a : Assessment)
    (h : assessStepsCore steps fws assessments = some res)
    (ha : assessments[i]? = some a) :
    (∃ t, res.assessments[i]? = some t ∧
      t.estimated_uplift = clampQ (-(3/10)) (3/10)
        ((if a.frameworks.length > 0 then
            (a.frameworks.map (fun p => p.2.estimated_uplift_pp)).sum / (a.frameworks.length : ℚ)
          else 0) / 100) ∧
      -((3:ℚ)/10) ≤ t.estimated_uplift ∧ t.estimated_uplift ≤ 3/10 ∧
      t.new_CR_s = clampQ 0 1 (t.base_CR_s + t.estimated_uplift)) ∧
    (∀ rec ∈ res.order_recommendations,
      rec.expected_CR_total = expectedCRTotal steps assessments rec.framework) := by
  obtain ⟨hA, _, hO⟩ := assessStepsCore_eq_some h
  constructor
  · obtain ⟨c2, hc2⟩ := transformAll_getElem? steps (steps.length - 1) assessments 1 i a ha
    obtain ⟨_, _, hu, hnew, _, _⟩ := transformOne_spec steps (steps.length - 1) c2 a
    refine ⟨(transformOne steps (steps.length - 1) c2 a).1, by rw [hA]; exact hc2, hu, ?_, ?_, hnew⟩
    · rw [hu]
      exact (clampQ_bounds _ (by norm_num)).1
    · rw [hu]
      exact (clampQ_bounds _ (by norm_num)).2
  · intro rec hrec
    rw [hO] at hrec
    have hrec2 := (sortDescBy_perm OrderRec.expected_CR_total _).mem_iff.mp hrec
    rcases List.mem_map.mp hrec2 with ⟨fw, _, rfl⟩
    rfl

/-- Witness for `assess_clamp_semantics`. -/
theorem assess_clamp_semantics_witness :
    (∃ t, mixedRes.assessments[0]? = some t ∧
      t.estimated_uplift = clampQ (-(3/10)) (3/10)
        ((if mixedA.frameworks.length > 0 then
            (mixedA.frameworks.map (fun p => p.2.estimated_uplift_pp)).sum / (mixedA.frameworks.length : ℚ)
          else 0) / 100) ∧
      -((3:ℚ)/10) ≤ t.estimated_uplift ∧ t.estimated_uplift ≤ 3/10 ∧
      t.new_CR_s = clampQ 0 1 (t.base_CR_s + t.estimated_uplift)) ∧
    (∀ rec ∈ mixedRes.order_recommendations,
      rec.expected_CR_total = expectedCRTotal [stepHalfCR] mixedTable rec.framework) :=
  assess_clamp_semantics [stepHalfCR] ["PAS", "Fogg"] mixedTable mixedRes 0 mixedA
    (by decide) (by decide)

/-- Claim C5: for a nonempty funnel with "Fogg" requested (all requested
frameworks known, draws in `uniform(1,5)`'s range), the Fogg-BM variant's
uplift equals the reordered-product-minus-original-product difference in
percentage points plus the `(avg fogg_score / 125) × 1.5` bonus; that
total always lies within the ±30pp policy bound (the reordered product
equals the original product, so the clamp is the identity on it), and
CR_total = baselineCR × (1 + uplift/100) with no re-clamp against the
baseline. -/
theorem fogg_variant_uplift (steps : List Step) (fws : List String) (d : Nat → ℚ)
    (hne : steps ≠ []) (hF : "Fogg" ∈ fws)
    (hknown : ∀ f ∈ fws, (FRAMEWORK_FOCUSES.lookup f).isSome)
    (hd : ∀ n, 1 ≤ d n ∧ d n ≤ 5) :
    ∃ r, handle_manus_funnel_fast steps fws d = some r ∧
      r.baselineCR = baselineCR steps ∧
      ∃ v ∈ r.variants, v.framework = "Fogg-BM" ∧
        v.uplift_pp = (foggCRTotal steps d - baselineCR steps) * 100
          + (foggAvgScore steps d / 125) * (3/2) ∧
        foggCRTotal steps d = baselineCR steps ∧
        clampQ (-30) 30 v.uplift_pp = v.uplift_pp ∧
        v.CR_total = r.baselineCR * (1 + v.uplift_pp / 100) := by
  obtain ⟨ms, hmock, _, _⟩ := create_mock_spec steps fws hknown
  refine ⟨{ baselineCR := baselineCR steps,
            variants := sortDescBy Variant.uplift_pp
              (fws.map (variantFor steps ms) ++ [foggVariant steps d]) }, ?_, rfl, ?_⟩
  · unfold handle_manus_funnel_fast
    rw [hmock]
    exact funnelCore_fogg steps fws ms d hF hne
  · refine ⟨foggVariant steps d, ?_, rfl, rfl, foggCRTotal_eq_baseline steps d, ?_, rfl⟩
    · exact (sortDescBy_perm Variant.uplift_pp _).mem_iff.mpr (by simp)
    · obtain ⟨_, h1, h2⟩ := foggUplift_value hd hne
      exact clampQ_eq_self h1 h2

/-- Witness for `fogg_variant_uplift`. -/
theorem fogg_variant_uplift_witness :
    ∃ r, handle_manus_funnel_fast [stepHalf] ["Fogg"] drawsConst3 = some r ∧
      r.baselineCR = baselineCR [stepHalf] ∧
      ∃ v ∈ r.variants, v.framework = "Fogg-BM" ∧
        v.uplift_pp = (foggCRTotal [stepHalf] drawsConst3 - baselineCR [stepHalf]) * 100
          + (foggAvgScore [stepHalf] drawsConst3 / 125) * (3/2) ∧
        foggCRTotal [stepHalf] drawsConst3 = baselineCR [stepHalf] ∧
        clampQ (-30) 30 v.uplift_pp = v.uplift_pp ∧
        v.CR_total = r.baselineCR * (1 + v.uplift_pp / 100) :=
  fogg_variant_uplift [stepHalf] ["Fogg"] drawsConst3 (by decide) (by decide) (by decide)
    (fun n => by constructor <;> norm_num [drawsConst3])

/-- Claim C6, counterexample: with a single step of observed CR 1.0 and one
framework, the mock uplift of 2pp yields a variant CR_total of 1.02 > 1 —
the variant CR is `baseline × (1 + uplift/100)` with no [0,1] clamp. -/
theorem variant_CR_total_exceeds_one :
    ((handle_manus_funnel_fast [stepFull] ["PAS"] drawsConst3).map
        (fun r => r.variants.map Variant.CR_total))
      = some [51/50] ∧ ¬ ((51/50 : ℚ) ≤ 1) := ⟨by decide, by decide⟩

/-- Claim C6, amended: the clamped quantities do stay in [0,1] — every
per-step new_CR_s and cumulative_new_CR_s, the predicted_CR_total, and
every order recommendation's expected_CR_total (given observed CRs in
[0,1]) — but a variant's CR_total is `baseline × (1 + uplift/100)` and is
not confined to [0,1]. -/
theorem assess_CRs_in_unit_interval (steps : List Step) (fws : List String)
    (assessments : List Assessment) (res : AssessResult)
    (hobs : ∀ s ∈ steps, ∀ cr, s.observedCR = some cr → 0 ≤ cr ∧ cr ≤ 1)
    (h : assessStepsCore steps fws assessments = some res) :
    (∀ t ∈ res.assessments,
      (0 ≤ t.new_CR_s ∧ t.new_CR_s ≤ 1) ∧
      (0 ≤ t.cumulative_new_CR_s ∧ t.cumulative_new_CR_s ≤ 1)) ∧
    (0 ≤ res.predicted_CR_total ∧ res.predicted_CR_total ≤ 1) ∧
    (∀ rec ∈ res.order_recommendations,
      0 ≤ rec.expected_CR_total ∧ rec.expected_CR_total ≤ 1) := by
  obtain ⟨hA, hP, hO⟩ := assessStepsCore_eq_some h
  have hb := transformAll_bounds steps (steps.length - 1) assessments 1 (by norm_num) (by norm_num)
  refine ⟨?_, ?_, ?_⟩
  · rw [hA]
    exact hb.1
  · rw [hP]
    exact hb.2
  · intro rec hrec
    rw [hO] at hrec
    have hrec2 := (sortDescBy_perm OrderRec.expected_CR_total _).mem_iff.mp hrec
    rcases List.mem_map.mp hrec2 with ⟨fw, _, rfl⟩
    exact expectedCRTotal_bounds hobs assessments fw

/-- Witness for `assess_CRs_in_unit_interval`. -/
theorem assess_CRs_in_unit_interval_witness :
    (∀ t ∈ scenarioRes.assessments,
      (0 ≤ t.new_CR_s ∧ t.new_CR_s ≤ 1) ∧
      (0 ≤ t.cumulative_new_CR_s ∧ t.cumulative_new_CR_s ≤ 1)) ∧
    (0 ≤ scenarioRes.predicted_CR_total ∧ scenarioRes.predicted_CR_total ≤ 1) ∧
    (∀ rec ∈ scenarioRes.order_recommendations,
      0 ≤ rec.expected_CR_total ∧ rec.expected_CR_total ≤ 1) :=
  assess_CRs_in_unit_interval twoStepsCR ["PAS"] scenarioTable scenarioRes
    (by
      intro s hs cr hcr
      rcases List.mem_cons.mp hs with rfl | hs2
      · rw [show stepHalfCR.observedCR = some (1/2) from rfl, Option.some_inj] at hcr
        constructor <;> [rw [← hcr]; rw [← hcr]] <;> norm_num
      · rcases List.mem_cons.mp hs2 with rfl | hs3
        · rw [show stepTwoFifthsCR.observedCR = some (2/5) from rfl, Option.some_inj] at hcr
          constructor <;> [rw [← hcr]; rw [← hcr]] <;> norm_num
        · cases hs3)
    (by decide)

/-- Claim C7: every variant's step_order is a permutation of 0..N-1; the
Fogg recommended order is a permutation of 0..N-1 obtained by a stable
sort descending on fogg_score — the sorted metrics are pairwise
descending, tied metrics keep their original order, and in the sorted
output a tie is always resolved with the smaller original step index
first. -/
theorem fogg_order_perm_sorted_stable (steps : List Step) (fws : List String) (d : Nat → ℚ)
    (hknown : ∀ f ∈ fws, (FRAMEWORK_FOCUSES.lookup f).isSome)
    (hF : "Fogg" ∈ fws → steps ≠ []) :
    ∃ r, handle_manus_funnel_fast steps fws d = some r ∧
      (∀ v ∈ r.variants, v.step_order.Perm (List.range steps.length)) ∧
      (foggRecommendedOrder steps d).Perm (List.range steps.length) ∧
      (foggSorted steps d).Pairwise (fun a b => b.fogg_score ≤ a.fogg_score) ∧
      (∀ a b, [a, b] <+ foggMetrics steps d → a.fogg_score = b.fogg_score →
        [a, b] <+ foggSorted steps d) ∧
      (∀ a b, [a, b] <+ foggSorted steps d → a.fogg_score = b.fogg_score →
        a.stepIndex < b.stepIndex) := by
  obtain ⟨ms, hmock, _, _⟩ := create_mock_spec steps fws hknown
  have hmemPerm : ∀ (vs : List Variant), (∀ v ∈ vs, v.step_order.Perm (List.range steps.length)) →
      ∀ v ∈ sortDescBy Variant.uplift_pp vs, v.step_order.Perm (List.range steps.length) := by
    intro vs hvs v hv
    exact hvs v ((sortDescBy_perm Variant.uplift_pp vs).mem_iff.mp hv)
  have htie : ∀ a b, [a, b] <+ foggSorted steps d → a.fogg_score = b.fogg_score →
      a.stepIndex < b.stepIndex := by
    intro a b hab hsc
    have hpw := foggMetrics_pairwise steps d
    have hndM : (foggMetrics steps d).Nodup := pairwise_lt_nodup hpw
    have hnd : (foggSorted steps d).Nodup :=
      ((sortDescBy_perm FoggMetric.fogg_score _).nodup_iff).mpr hndM
    have haM : a ∈ foggMetrics steps d :=
      (sortDescBy_perm FoggMetric.fogg_score _).mem_iff.mp (hab.subset (by simp))
    have hbM : b ∈ foggMetrics steps d :=
      (sortDescBy_perm FoggMetric.fogg_score _).mem_iff.mp (hab.subset (by simp))
    have hne2 : a ≠ b := by
      intro he
      subst he
      exact (List.nodup_iff_sublist.mp hnd a) hab
    have hidxne : a.stepIndex ≠ b.stepIndex := fun he => hne2 (pairwise_lt_inj hpw haM hbM he)
    by_contra hcon
    push_neg at hcon
    have hblt : b.stepIndex < a.stepIndex := lt_of_le_of_ne hcon (fun he => hidxne he.symm)
    have hpair : [b, a] <+ foggMetrics steps d := pairwise_lt_pair_sublist hpw hbM haM hblt
    have hba : [b, a] <+ foggSorted steps d :=
      sortDescBy_stable FoggMetric.fogg_score hpair (le_of_eq hsc)
    exact hne2 (sublist_pair_antisym hnd hab hba)
  by_cases hFogg : "Fogg" ∈ fws
  · refine ⟨{ baselineCR := baselineCR steps,
              variants := sortDescBy Variant.uplift_pp
                (fws.map (variantFor steps ms) ++ [foggVariant steps d]) }, ?_, ?_,
      foggRecommendedOrder_perm steps d, sortDescBy_pairwise _ _,
      fun a b hab hsc => sortDescBy_stable _ hab (le_of_eq hsc.symm), htie⟩
    · unfold handle_manus_funnel_fast
      rw [hmock]
      exact funnelCore_fogg steps fws ms d hFogg (hF hFogg)
    · apply hmemPerm
      intro v hv
      rcases List.mem_append.mp hv with hv1 | hv2
      · rcases List.mem_map.mp hv1 with ⟨fw, _, rfl⟩
        exact List.Perm.refl _
      · rw [List.mem_singleton.mp hv2]
        exact foggRecommendedOrder_perm steps d
  · refine ⟨{ baselineCR := baselineCR steps,
              variants := sortDescBy Variant.uplift_pp (fws.map (variantFor steps ms)) }, ?_, ?_,
      foggRecommendedOrder_perm steps d, sortDescBy_pairwise _ _,
      fun a b hab hsc => sortDescBy_stable _ hab (le_of_eq hsc.symm), htie⟩
    · unfold handle_manus_funnel_fast
      rw [hmock]
      exact funnelCore_nofogg steps fws ms d hFogg
    · apply hmemPerm
      intro v hv
      rcases List.mem_map.mp hv with ⟨fw, _, rfl⟩
      exact List.Perm.refl _

/-- Witness for `fogg_order_perm_sorted_stable`. -/
theorem fogg_order_perm_sorted_stable_witness :
    ∃ r, handle_manus_funnel_fast twoSteps ["Fogg"] drawsConst3 = some r ∧
      (∀ v ∈ r.variants, v.step_order.Perm (List.range twoSteps.length)) ∧
      (foggRecommendedOrder twoSteps drawsConst3).Perm (List.range twoSteps.length) ∧
      (foggSorted twoSteps drawsConst3).Pairwise (fun a b => b.fogg_score ≤ a.fogg_score) ∧
      (∀ a b, [a, b] <+ foggMetrics twoSteps drawsConst3 → a.fogg_score = b.fogg_score →
        [a, b] <+ foggSorted twoSteps drawsConst3) ∧
      (∀ a b, [a, b] <+ foggSorted twoSteps drawsConst3 → a.fogg_score = b.fogg_score →
        a.stepIndex < b.stepIndex) :=
  fogg_order_perm_sorted_stable twoSteps ["Fogg"] drawsConst3 (by decide) (fun _ => by decide)

/-- Claim C8, counterexample: a framework identifier outside
`FRAMEWORK_FOCUSES` is not treated as an opaque label — the mock analysis
indexes `FRAMEWORK_FOCUSES[framework]` and raises `KeyError`, so the
assessment errors out. -/
theorem unknown_framework_raises :
    handle_assess_steps_fast [stepFull] ["UnknownFW"] = none := by decide

/-- Claim C8, amended: for framework identifiers in the known set the
engine completes without error (`assessSteps` whenever the framework list
is nonempty, `manusFunnel` additionally requiring a nonempty funnel when
"Fogg" is requested); identifiers outside `FRAMEWORK_FOCUSES` raise
`KeyError` in the fast server's text generation. -/
theorem known_frameworks_complete (steps : List Step) (fws : List String)
    (hne : fws ≠ [])
    (hknown : ∀ f ∈ fws, (FRAMEWORK_FOCUSES.lookup f).isSome) :
    (handle_assess_steps_fast steps fws).isSome ∧
    (("Fogg" ∈ fws → steps ≠ []) → ∀ d, (handle_manus_funnel_fast steps fws d).isSome) := by
  obtain ⟨ms, hmock, hlen, _⟩ := create_mock_spec steps fws hknown
  constructor
  · unfold handle_assess_steps_fast
    rw [hmock]
    show (assessStepsCore steps fws ms).isSome
    unfold assessStepsCore
    split
    · rename_i hcond
      exfalso
      rcases hcond.2 with hsteps | hfws
      · subst hsteps
        exact hcond.1 (List.length_eq_zero.mp (by simpa using hlen))
      · exact hne hfws
    · simp
  · intro hF d
    unfold handle_manus_funnel_fast
    rw [hmock]
    show (funnelCore steps fws ms d).isSome
    by_cases hFogg : "Fogg" ∈ fws
    · rw [funnelCore_fogg steps fws ms d hFogg (hF hFogg)]
      rfl
    · rw [funnelCore_nofogg steps fws ms d hFogg]
      rfl

/-- Witness for `known_frameworks_complete`. -/
theorem known_frameworks_complete_witness :
    (handle_assess_steps_fast [stepFull] ["PAS", "Fogg"]).isSome ∧
    (handle_manus_funnel_fast [stepFull] ["PAS", "Fogg"] drawsConst3).isSome :=
  ⟨(known_frameworks_complete [stepFull] ["PAS", "Fogg"] (by decide) (by decide)).1,
   (known_frameworks_complete [stepFull] ["PAS", "Fogg"] (by decide) (by decide)).2
     (fun _ => by decide) drawsConst3⟩

/-- Claim C9: the normalizer completes every (step, framework) pair — each
missing pair is synthesized with the non-mock fallback values (confidence
0.7, estimated_uplift_pp 1.5, framework-labelled suggestion text), the
mock path produces confidence 0.8, estimated_uplift_pp 2.0 with
motivation_score 3.5 / trigger_score 3.0 for the Fogg framework, and
entries already present are never removed or altered. -/
theorem normalizer_fallback (steps : List Step) (fws : List String)
    (assessments : List Assessment)
    (hknown : ∀ f ∈ fws, (FRAMEWORK_FOCUSES.lookup f).isSome) :
    (∃ res, fillMissingAssessments steps fws assessments = some res ∧
      ∀ j a, assessments[j]? = some a →
        ∃ a', res[j]? = some a' ∧ a'.stepIndex = a.stepIndex ∧
          (∀ fw s, a.frameworks.lookup fw = some s → a'.frameworks.lookup fw = some s) ∧
          (j < steps.length →
            ∀ fw focus, fw ∈ fws → FRAMEWORK_FOCUSES.lookup fw = some focus →
              a.frameworks.lookup fw = none →
              a'.frameworks.lookup fw = some (fallbackSuggestion fw focus))) ∧
    (∀ fw focus, (fallbackSuggestion fw focus).confidence = 7/10 ∧
      (fallbackSuggestion fw focus).estimated_uplift_pp = 3/2 ∧
      (fallbackSuggestion fw focus).suggestion = "Optimize using " ++ fw ++ " principles") ∧
    (∀ fw i focus, (mockSuggestion fw i focus).confidence = 4/5 ∧
      (mockSuggestion fw i focus).estimated_uplift_pp = 2) ∧
    (∀ i focus, (mockSuggestion "Fogg" i focus).motivation_score = some (7/2) ∧
      (mockSuggestion "Fogg" i focus).trigger_score = some 3) ∧
    (∀ i, i < steps.length → ∃ ms a, create_mock_analysis steps fws = some ms ∧
      ms[i]? = some a ∧ ∀ fw focus, fw ∈ fws → FRAMEWORK_FOCUSES.lookup fw = some focus →
        a.frameworks.lookup fw = some (mockSuggestion fw i focus)) := by
  refine ⟨?_, fun fw focus => ⟨rfl, rfl, rfl⟩, fun fw i focus => ⟨rfl, rfl⟩,
    fun i focus => ⟨by simp [mockSuggestion], by simp [mockSuggestion]⟩, ?_⟩
  · obtain ⟨res, hres, hspec⟩ :=
      fillMissingFrom_spec fws hknown steps.length 0 assessments (by omega)
    refine ⟨res, hres, ?_⟩
    intro j a h
    obtain ⟨a', h1, h2, h3, h4⟩ := hspec j a h
    exact ⟨a', h1, h2, h3, fun hj => h4 (by omega) (by omega)⟩
  · intro i hi
    obtain ⟨ms, hmock, _, hidx⟩ := create_mock_spec steps fws hknown
    obtain ⟨a, ha, _, hlook⟩ := hidx i hi
    exact ⟨ms, a, hmock, ha, hlook⟩

/-- Witness for `normalizer_fallback` (the missing-"JTBD"-on-step-2
scenario). -/
theorem normalizer_fallback_witness :
    (∃ res, fillMissingAssessments threeSteps ["JTBD"] jtbdTable = some res ∧
      ∀ j a, jtbdTable[j]? = some a →
        ∃ a', res[j]? = some a' ∧ a'.stepIndex = a.stepIndex ∧
          (∀ fw s, a.frameworks.lookup fw = some s → a'.frameworks.lookup fw = some s) ∧
          (j < threeSteps.length →
            ∀ fw focus, fw ∈ ["JTBD"] → FRAMEWORK_FOCUSES.lookup fw = some focus →
              a.frameworks.lookup fw = none →
              a'.frameworks.lookup fw = some (fallbackSuggestion fw focus))) ∧
    (∀ fw focus, (fallbackSuggestion fw focus).confidence = 7/10 ∧
      (fallbackSuggestion fw focus).estimated_uplift_pp = 3/2 ∧
      (fallbackSuggestion fw focus).suggestion = "Optimize using " ++ fw ++ " principles") ∧
    (∀ fw i focus, (mockSuggestion fw i focus).confidence = 4/5 ∧
      (mockSuggestion fw i focus).estimated_uplift_pp = 2) ∧
    (∀ i focus, (mockSuggestion "Fogg" i focus).motivation_score = some (7/2) ∧
      (mockSuggestion "Fogg" i focus).trigger_score = some 3) ∧
    (∀ i, i < threeSteps.length → ∃ ms a, create_mock_analysis threeSteps ["JTBD"] = some ms ∧
      ms[i]? = some a ∧ ∀ fw focus, fw ∈ ["JTBD"] → FRAMEWORK_FOCUSES.lookup fw = some focus →
        a.frameworks.lookup fw = some (mockSuggestion fw i focus)) :=
  normalizer_fallback threeSteps ["JTBD"] jtbdTable (by decide)

/-- Claim C10: every boost element is classified into exactly one of the
eight fixed categories with an integer score in {1, 2, 3, 4}; when no
keyword rule matches, the default is category "visual" with score 1; the
step total is the sum of the assigned scores; and the classification
depends only on the element's id and lower-cased text. -/
theorem boost_classification (elements : List BoostElement) (e1 e2 : BoostElement)
    (hid : e1.id = e2.id) (htext : strLower e1.text = strLower e2.text) :
    (∀ c ∈ (handle_assess_boost_elements_fast elements).classifiedBoosts,
      c.category ∈ ["social-proof", "authority", "urgency", "scarcity",
        "visual", "security", "progress", "personalization"] ∧
      c.score ∈ [1, 2, 3, 4]) ∧
    (handle_assess_boost_elements_fast elements).stepBoostTotal =
      ((handle_assess_boost_elements_fast elements).classifiedBoosts.map
        ClassifiedBoost.score).sum ∧
    (∀ e : BoostElement,
      containsAny (strLower e.text) ["testimonial", "review", "customers", "users", "ratings"] = false →
      containsAny (strLower e.text) ["secure", "ssl", "encrypted", "trusted", "verified"] = false →
      containsAny (strLower e.text) ["limited", "exclusive", "only", "few left"] = false →
      containsAny (strLower e.text) ["urgent", "deadline", "expires", "hurry", "now"] = false →
      containsAny (strLower e.text) ["expert", "certified", "award", "professional", "endorsed"] = false →
      containsAny (strLower e.text) ["progress", "step", "completion", "indicator"] = false →
      containsAny (strLower e.text) ["personalized", "customized", "tailored", "for you"] = false →
      classifyElement e = ⟨e.id, "visual", 1⟩) ∧
    classifyElement e1 = classifyElement e2 := by
  refine ⟨?_, rfl, ?_, ?_⟩
  · intro c hc
    rcases List.mem_map.mp hc with ⟨e, _, rfl⟩
    simp only [classifyElement]
    split_ifs <;> simp
  · intro e h1 h2 h3 h4 h5 h6 h7
    simp only [classifyElement, h1, h2, h3, h4, h5, h6, h7, Bool.false_eq_true, if_false, ite_self]
  · simp only [classifyElement, hid, htext]

/-- Witness for `boost_classification`. -/
theorem boost_classification_witness :
    (∀ c ∈ (handle_assess_boost_elements_fast boostElems).classifiedBoosts,
      c.category ∈ ["social-proof", "authority", "urgency", "scarcity",
        "visual", "security", "progress", "personalization"] ∧
      c.score ∈ [1, 2, 3, 4]) ∧
    (handle_assess_boost_elements_fast boostElems).stepBoostTotal =
      ((handle_assess_boost_elements_fast boostElems).classifiedBoosts.map
        ClassifiedBoost.score).sum ∧
    (∀ e : BoostElement,
      containsAny (strLower e.text) ["testimonial", "review", "customers", "users", "ratings"] = false →
      containsAny (strLower e.text) ["secure", "ssl", "encrypted", "trusted", "verified"] = false →
      containsAny (strLower e.text) ["limited", "exclusive", "only", "few left"] = false →
      containsAny (strLower e.text) ["urgent", "deadline", "expires", "hurry", "now"] = false →
      containsAny (strLower e.text) ["expert", "certified", "award", "professional", "endorsed"] = false →
      containsAny (strLower e.text) ["progress", "step", "completion", "indicator"] = false →
      containsAny (strLower e.text) ["personalized", "customized", "tailored", "for you"] = false →
      classifyElement e = ⟨e.id, "visual", 1⟩) ∧
    classifyElement elemUpper = classifyElement elemLower :=
  boost_classification boostElems elemUpper elemLower rfl (by decide)

end JourneyFunnel
